import Mathlib

/-!
# Verification of the composite-service lifecycle core

This file embeds the service-lifecycle orchestration engine of the
composite-service repository:

* `ComposedService` — the per-service supervisor (source: `ComposedService.ts`,
  here `src/unnamed/part_003`): memoized `start`/`stop`, crash handling,
  restart.
* `CrashStep` — a small-step machine for `ComposedService.handleCrash`
  interleaved with `stop` invocations (part_003 lines 64-113).
* `Orch` — a small-step machine for the orchestrator's recursive
  `startService` / `stopService` task trees (`CompositeService.ts`
  lines 74-83 and 99-105).
* `Composite` — the orchestrator's `die` entry point, signal handling and
  process-exit behaviour (`CompositeService.ts` lines 43-47 and 85-97).

Machine integers play no role here; identities of promises, readiness gates
and processes are modelled with `Nat` drawn from a per-supervisor fresh-id
counter, mirroring the fact that each `new Promise` / `new ServiceProcess`
in the source is a distinct object.
-/

/-! ## The per-service supervisor: `ComposedService` (part_003) -/

/-- One `ServiceProcess` instance (the ProcessHandle). Only the identity
and the `isEnded` point-in-time query matter to the supervisor logic. -/
structure ServiceProcess where
  pid : Nat
  isEnded : Bool
deriving DecidableEq, Repr

/-- The slice of `NormalizedComposedServiceConfig` the supervisor reads. -/
structure NormalizedComposedServiceConfig where
  dependencies : List Nat
  minimumRestartDelay : Nat
deriving DecidableEq, Repr

/-- Observable effects of supervisor operations:
`console.log` lines, `console.error(new InternalError ...)` reports,
`new ServiceProcess(...)` spawns, `process.end()` termination requests,
calls of the orchestrator's `die`, and (for the crash machine) the
moment `stop()` is invoked. -/
inductive SvcEv where
  | logLine (msg : String)
  | logInternalError (msg : String)
  | spawnProcess (pid : Nat)
  | terminateRequest (pid : Nat)
  | dieCall (msg : String)
  | stopInvoked
deriving DecidableEq, Repr

/-- Mutable state of one `ComposedService` (part_003 lines 9-27).
`ready`, `startResult` and `stopResult` hold promise identities
(`none` = the field is still `undefined`); `readyResolved` records whether
the readiness gate has settled; `nextId` is the fresh-identity counter. -/
structure ComposedService where
  config : NormalizedComposedServiceConfig
  ready : Option Nat
  readyResolved : Bool
  process : Option ServiceProcess
  startResult : Option Nat
  stopResult : Option Nat
  crashes : Nat
  nextId : Nat
deriving DecidableEq, Repr

/-- `new ComposedService(id, config, die)` (part_003 lines 19-27):
every mutable field starts out `undefined` / empty. -/
def newComposedService (config : NormalizedComposedServiceConfig) :
    ComposedService :=
  { config := config, ready := none, readyResolved := false, process := none,
    startResult := none, stopResult := none, crashes := 0, nextId := 0 }

/-- `ComposedService.start` (part_003 lines 28-43) together with the
synchronous prefix of `defineReady` (lines 44-51) and `startProcess`
(lines 52-57): if `stopResult` is set, report an `InternalError` and return
the memoized `startResult` (possibly `undefined`); if `startResult` is set,
return it unchanged; otherwise log, create a fresh readiness gate, spawn a
fresh `ServiceProcess` and memoize a fresh start promise.  All of this runs
in one synchronous block in the source, so it is one atomic function here. -/
def start (svc : ComposedService) : ComposedService × List SvcEv × Option Nat :=
  if svc.stopResult.isSome then
    (svc, [SvcEv.logInternalError "Cannot start after stopping"], svc.startResult)
  else
    match svc.startResult with
    | some r => (svc, [], some r)
    | none =>
      let gate := svc.nextId
      let pid := svc.nextId + 1
      let res := svc.nextId + 2
      ({ svc with ready := some gate, readyResolved := false,
                  process := some { pid := pid, isEnded := false },
                  startResult := some res, nextId := svc.nextId + 3 },
       [SvcEv.logLine "Starting service", SvcEv.spawnProcess pid], some res)

/-- `ComposedService.stop` (part_003 lines 101-113): memoized on
`stopResult`; resolves immediately when no process was ever spawned or the
process already ended; otherwise logs and issues one termination request. -/
def stop (svc : ComposedService) : ComposedService × List SvcEv × Nat :=
  match svc.stopResult with
  | some r => (svc, [], r)
  | none =>
    match svc.process with
    | none =>
      ({ svc with stopResult := some svc.nextId, nextId := svc.nextId + 1 },
       [], svc.nextId)
    | some p =>
      if p.isEnded then
        ({ svc with stopResult := some svc.nextId, nextId := svc.nextId + 1 },
         [], svc.nextId)
      else
        ({ svc with stopResult := some svc.nextId, nextId := svc.nextId + 1 },
         [SvcEv.logLine "Stopping service", SvcEv.terminateRequest p.pid],
         svc.nextId)

/-- Sequential iteration of `start`, collecting effects and each caller's
returned outcome. -/
def iterStart : ComposedService → Nat →
    ComposedService × List SvcEv × List (Option Nat)
  | svc, 0 => (svc, [], [])
  | svc, n + 1 =>
    let r := start svc
    let rest := iterStart r.1 n
    (rest.1, r.2.1 ++ rest.2.1, r.2.2 :: rest.2.2)

/-- Sequential iteration of `stop`, collecting effects and each caller's
returned outcome. -/
def iterStop : ComposedService → Nat → ComposedService × List SvcEv × List Nat
  | svc, 0 => (svc, [], [])
  | svc, n + 1 =>
    let r := stop svc
    let rest := iterStop r.1 n
    (rest.1, r.2.1 ++ rest.2.1, r.2.2 :: rest.2.2)

/-- Number of `spawnProcess` effects in an effect list. -/
def countSpawn (evs : List SvcEv) : Nat :=
  evs.countP fun e => match e with | SvcEv.spawnProcess _ => true | _ => false

/-- Number of `terminateRequest` effects in an effect list. -/
def countTerminate (evs : List SvcEv) : Nat :=
  evs.countP fun e =>
    match e with | SvcEv.terminateRequest _ => true | _ => false

/-! ## Crash handling: `ComposedService.handleCrash` (part_003 lines 64-100) -/

/-- Modelled from the spec: the default crash-decision hook (`onCrash`) is
produced by config normalization (`validateAndNormalizeConfig`), whose source
is not under src/.  Spec section 4.3: the default policy is restart-if-started
— when the service has reached readiness the hook returns normally and the
restart proceeds; a pre-ready crash is a fatal condition
("Service crashed before ready", spec section 7, PreReadyCrash). -/
def defaultOnCrash (isServiceReady : Bool) : Except String Unit :=
  if isServiceReady then Except.ok ()
  else Except.error "Service crashed before ready"

/-- One complete run of `handleCrash` (part_003 lines 64-100) with the
default hook and no concurrent `stop` invocation, with explicit times:
`t0` is the time the crash notification arrives (when the `setTimeout` for
`minimumRestartDelay` is created, line 72-74), `tHook` the time at which the
`onCrash` hook settles.  Returned: the final supervisor state, the timed
effects, and the time of the last step.  The restart (lines 94-99) happens
only after both the hook and the delay, i.e. at `max tHook (t0 + delay)`. -/
def handleCrashRun (svc : ComposedService) (t0 tHook : Nat) :
    ComposedService × List (Nat × SvcEv) × Nat :=
  if svc.stopResult.isSome then
    (svc,
     [(t0, SvcEv.logInternalError "Not expecting handleCrash called when stopping")],
     t0)
  else
    let deadline := t0 + svc.config.minimumRestartDelay
    let svc1 := { svc with crashes := svc.crashes + 1 }
    match defaultOnCrash svc1.readyResolved with
    | Except.error e =>
      -- `await this.die(...)` (line 89): the returned promise never settles,
      -- so the crash handler parks here and no restart happens.
      (svc1,
       [(t0, SvcEv.logLine "Service crashed"),
        (tHook, SvcEv.dieCall ("Error from onCrash function: " ++ e))],
       tHook)
    | Except.ok _ =>
      let tRestart := max tHook deadline
      let pid := svc1.nextId
      ({ svc1 with process := some { pid := pid, isEnded := false },
                   nextId := svc1.nextId + 1 },
       [(t0, SvcEv.logLine "Service crashed"),
        (tRestart, SvcEv.logLine "Restarting service"),
        (tRestart, SvcEv.spawnProcess pid)],
       tRestart)

/-- Number of `spawnProcess` effects in a timed effect list. -/
def countSpawnT (evs : List (Nat × SvcEv)) : Nat :=
  evs.countP fun te =>
    match te.2 with | SvcEv.spawnProcess _ => true | _ => false

/-- The claim that a crash-triggered restart installs a fresh ReadinessGate:
after `handleCrash` runs to completion (restart included), `this.ready`
differs from what it was before the crash. -/
def FreshGateOnRestart (svc : ComposedService) (t0 tHook : Nat) : Prop :=
  (handleCrashRun svc t0 tHook).1.ready ≠ svc.ready

/-- Program counter of one in-flight `handleCrash` invocation, one value per
suspension point of the source (part_003 lines 64-100). -/
inductive CrashPhase where
  | entry
  | awaitReadyCheck
  | awaitHook (isServiceReady : Bool)
  | awaitDelay
  | dying
  | returned
  | restarted
deriving DecidableEq, Repr

/-- A supervisor together with one in-flight `handleCrash` invocation and
the trace of effects so far (newest first). -/
structure CrashSys where
  svc : ComposedService
  phase : CrashPhase
  trace : List SvcEv
deriving DecidableEq, Repr

/-- Interleaved small steps of `handleCrash` (part_003 lines 64-100) and
`stop` (lines 101-113).  Synchronous blocks of the source are single steps:
the entry check (lines 65-80) up to the `isResolved` await; the resumption
after the hook, which immediately re-checks `stopResult` (lines 86-93); the
resumption after the delay, which re-checks `stopResult` and, when clear,
logs and spawns the replacement process (lines 94-99).  `hookErr` models the
hook rejecting, after which `await this.die(...)` (line 89) parks the
handler forever.  `stopCall` is a concurrent `stop()` invocation, possible
at every suspension point. -/
inductive CrashStep : CrashSys → CrashSys → Prop where
  | entryStopped (svc : ComposedService) (tr : List SvcEv)
      (h : svc.stopResult.isSome) :
      CrashStep ⟨svc, CrashPhase.entry, tr⟩
        ⟨svc, CrashPhase.returned,
         SvcEv.logInternalError "Not expecting handleCrash called when stopping" :: tr⟩
  | entryRun (svc : ComposedService) (tr : List SvcEv)
      (h : svc.stopResult = none) :
      CrashStep ⟨svc, CrashPhase.entry, tr⟩
        ⟨{ svc with crashes := svc.crashes + 1 }, CrashPhase.awaitReadyCheck,
         SvcEv.logLine "Service crashed" :: tr⟩
  | readyChecked (svc : ComposedService) (tr : List SvcEv) :
      CrashStep ⟨svc, CrashPhase.awaitReadyCheck, tr⟩
        ⟨svc, CrashPhase.awaitHook svc.readyResolved, tr⟩
  | hookOk (svc : ComposedService) (tr : List SvcEv) (b : Bool)
      (hstop : svc.stopResult = none) :
      CrashStep ⟨svc, CrashPhase.awaitHook b, tr⟩
        ⟨svc, CrashPhase.awaitDelay, tr⟩
  | hookOkStopped (svc : ComposedService) (tr : List SvcEv) (b : Bool)
      (hstop : svc.stopResult.isSome) :
      CrashStep ⟨svc, CrashPhase.awaitHook b, tr⟩
        ⟨svc, CrashPhase.returned, tr⟩
  | hookErr (svc : ComposedService) (tr : List SvcEv) (b : Bool) (msg : String) :
      CrashStep ⟨svc, CrashPhase.awaitHook b, tr⟩
        ⟨svc, CrashPhase.dying, SvcEv.dieCall msg :: tr⟩
  | delayFired (svc : ComposedService) (tr : List SvcEv)
      (hstop : svc.stopResult = none) :
      CrashStep ⟨svc, CrashPhase.awaitDelay, tr⟩
        ⟨{ svc with process := some { pid := svc.nextId, isEnded := false },
                    nextId := svc.nextId + 1 }, CrashPhase.restarted,
         SvcEv.spawnProcess svc.nextId :: SvcEv.logLine "Restarting service" :: tr⟩
  | delayFiredStopped (svc : ComposedService) (tr : List SvcEv)
      (hstop : svc.stopResult.isSome) :
      CrashStep ⟨svc, CrashPhase.awaitDelay, tr⟩ ⟨svc, CrashPhase.returned, tr⟩
  | stopCall (svc : ComposedService) (ph : CrashPhase) (tr : List SvcEv) :
      CrashStep ⟨svc, ph, tr⟩
        ⟨(stop svc).1, ph, SvcEv.stopInvoked :: ((stop svc).2.1 ++ tr)⟩

/-- No `spawnProcess` effect more recent than a `stopInvoked` effect, stated
recursively over a newest-first trace: every spawn in the trace has no
`stopInvoked` anywhere older than it. -/
def NoSpawnAfterStop : List SvcEv → Prop
  | [] => True
  | e :: tr =>
    NoSpawnAfterStop tr ∧
    ((∃ pid, e = SvcEv.spawnProcess pid) → SvcEv.stopInvoked ∉ tr)

/-! ## The orchestrator's start/stop sequencing (`CompositeService.ts`)

`startService` (lines 74-83) and `stopService` (lines 99-105) have the same
shape: await one recursive call per prerequisite service concurrently
(`Promise.all`), then run an operation on the service's supervisor —
`startService` additionally parks forever when the global `stopping` flag is
set at resumption time.  `Orch` models both with one task-tree machine,
parameterized by the prerequisite function (`dependencies` for start,
dependents for stop) and by whether the stopping-flag check is performed
(`cf = true` for `startService`, `false` for `stopService`).  The
supervisor operation (`service.start()` / `service.stop()`) is abstract:
per service it is not-yet-invoked, running, or completed — memoized, so a
second invocation observes the same outcome; its completion is a scheduler
step.  Services are identified by `Nat`. -/

namespace Orch

/-- Status of one supervisor operation: the memoized `start()` (or `stop()`)
promise of a service — not yet created, created but pending, or resolved. -/
inductive Phase where
  | notInvoked
  | running
  | completed
deriving DecidableEq, Repr

/-- Observable events: `opBegin s` = the supervisor operation of service `s`
is invoked for the first time (for `start()` this is where the process is
spawned); `opComplete s` = that operation's promise resolves; `flagSet` =
`die` performs the `false → true` transition of the `stopping` flag. -/
inductive Ev where
  | opBegin (s : Nat)
  | opComplete (s : Nat)
  | flagSet
deriving DecidableEq, Repr

/-- Global orchestrator state: the write-once `stopping` flag, the status of
every service's supervisor operation, and the event trace (newest first). -/
structure OrchSt where
  stopping : Bool
  phase : Nat → Phase
  trace : List Ev

/-- One in-flight recursive `startService`/`stopService` invocation for a
service: awaiting its prerequisite subtree (`Promise.all` over one child
task per prerequisite), awaiting the supervisor operation, parked forever
(`await never()`), or resolved. -/
inductive OTask where
  | waiting (svc : Nat) (children : List OTask)
  | running (svc : Nat)
  | parked (svc : Nat)
  | done (svc : Nat)

/-- The service an invocation is for. -/
def OTask.svc : OTask → Nat
  | OTask.waiting s _ => s
  | OTask.running s => s
  | OTask.parked s => s
  | OTask.done s => s

/-- Whether an invocation's promise has resolved. -/
def OTask.isDone : OTask → Bool
  | OTask.done _ => true
  | _ => false

/-- Small steps of one task (`cf` = whether the stopping-flag check of
`startService` lines 79-81 is present):

* `park` — all children resolved, flag set: `await never()` (line 80).
* `invoke` — all children resolved, flag clear (when checked): first
  invocation of the supervisor operation; records `opBegin` and marks the
  operation running.  The flag check and the invocation are one synchronous
  block in the source (lines 79-82), hence one step.
* `memo` — same resumption, but the operation was already invoked: the
  memoized promise is returned, no new effect.
* `finish` — the supervisor operation has completed, so this invocation's
  own promise resolves.
* `child` — a step inside one of the awaited recursive invocations. -/
inductive TStep (cf : Bool) : OrchSt → OTask → OrchSt → OTask → Prop where
  | park (st : OrchSt) (s : Nat) (children : List OTask)
      (hdone : ∀ t ∈ children, t.isDone = true)
      (hcf : cf = true) (hstop : st.stopping = true) :
      TStep cf st (OTask.waiting s children) st (OTask.parked s)
  | invoke (st : OrchSt) (s : Nat) (children : List OTask)
      (hdone : ∀ t ∈ children, t.isDone = true)
      (hstop : cf = true → st.stopping = false)
      (hph : st.phase s = Phase.notInvoked) :
      TStep cf st (OTask.waiting s children)
        { st with phase := fun x => if x = s then Phase.running else st.phase x,
                  trace := Ev.opBegin s :: st.trace }
        (OTask.running s)
  | memo (st : OrchSt) (s : Nat) (children : List OTask)
      (hdone : ∀ t ∈ children, t.isDone = true)
      (hstop : cf = true → st.stopping = false)
      (hph : st.phase s ≠ Phase.notInvoked) :
      TStep cf st (OTask.waiting s children) st (OTask.running s)
  | finish (st : OrchSt) (s : Nat) (hph : st.phase s = Phase.completed) :
      TStep cf st (OTask.running s) st (OTask.done s)
  | child (st st' : OrchSt) (s : Nat) (pre post : List OTask) (t t' : OTask)
      (hstep : TStep cf st t st' t') :
      TStep cf st (OTask.waiting s (pre ++ t :: post)) st'
        (OTask.waiting s (pre ++ t' :: post))

/-- The whole system: orchestrator state plus the forest of top-level
`startService`/`stopService` invocations (the `Promise.all` of
`CompositeService.ts` lines 69-71 resp. line 90). -/
structure OSys where
  st : OrchSt
  tasks : List OTask

/-- Global steps: a task step somewhere in the forest, the completion of a
running supervisor operation (a scheduler event — e.g. the process is
confirmed spawned and the readiness gate resolves), or `die`'s write-once
`false → true` transition of the `stopping` flag. -/
inductive GStep (cf : Bool) : OSys → OSys → Prop where
  | task (st st' : OrchSt) (pre post : List OTask) (t t' : OTask)
      (hstep : TStep cf st t st' t') :
      GStep cf ⟨st, pre ++ t :: post⟩ ⟨st', pre ++ t' :: post⟩
  | complete (st : OrchSt) (ts : List OTask) (s : Nat)
      (hph : st.phase s = Phase.running) :
      GStep cf ⟨st, ts⟩
        ⟨{ st with phase := fun x => if x = s then Phase.completed else st.phase x,
                   trace := Ev.opComplete s :: st.trace }, ts⟩
  | setFlag (st : OrchSt) (ts : List OTask) (hstop : st.stopping = false) :
      GStep cf ⟨st, ts⟩
        ⟨{ st with stopping := true, trace := Ev.flagSet :: st.trace }, ts⟩

/-- Reachability in the orchestrator machine. -/
def Reaches (cf : Bool) : OSys → OSys → Prop :=
  Relation.ReflTransGen (GStep cf)

/-- The initial orchestrator state (`CompositeService` constructor,
lines 17 and 68-71): flag clear, nothing invoked, empty trace. -/
def st0 : OrchSt :=
  { stopping := false, phase := fun _ => Phase.notInvoked, trace := [] }

/-- The recursive unfolding of `startService`/`stopService` for one service:
one child invocation per prerequisite.  `fuel` bounds the depth; with fuel
exceeding the service's rank in an acyclic graph the unfolding is complete
(`buildTask_wf`). -/
def buildTask (pr : Nat → List Nat) : Nat → Nat → OTask
  | 0, s => OTask.waiting s []
  | fuel + 1, s => OTask.waiting s ((pr s).map fun d => buildTask pr fuel d)

/-- The top-level forest: one invocation per service of the graph. -/
def forest (pr : Nat → List Nat) (services : List Nat) (r : Nat → Nat) :
    List OTask :=
  services.map fun s => buildTask pr (r s + 1) s

/-- The dependents of service `s`: every service whose dependency list
includes `s` (`CompositeService.stopService`, lines 100-102). -/
def dependents (services : List Nat) (deps : Nat → List Nat) (s : Nat) :
    List Nat :=
  services.filter fun d => (deps d).contains s

/-- Well-formed invocation: a waiting task has one child invocation per
prerequisite of its service, recursively. -/
inductive WF (pr : Nat → List Nat) : OTask → Prop where
  | waiting (s : Nat) (children : List OTask)
      (hch : ∀ t ∈ children, WF pr t)
      (hcover : ∀ d ∈ pr s, ∃ t ∈ children, t.svc = d) :
      WF pr (OTask.waiting s children)
  | running (s : Nat) : WF pr (OTask.running s)
  | parked (s : Nat) : WF pr (OTask.parked s)
  | done (s : Nat) : WF pr (OTask.done s)

/-- Every resolved invocation in the tree is for a service whose supervisor
operation has completed. -/
inductive DoneOK (st : OrchSt) : OTask → Prop where
  | waiting (s : Nat) (children : List OTask)
      (hch : ∀ t ∈ children, DoneOK st t) :
      DoneOK st (OTask.waiting s children)
  | running (s : Nat) : DoneOK st (OTask.running s)
  | parked (s : Nat) : DoneOK st (OTask.parked s)
  | done (s : Nat) (hph : st.phase s = Phase.completed) :
      DoneOK st (OTask.done s)

/-- The ordering property of a trace (newest first): wherever a supervisor
operation on `s` begins, the operation of every prerequisite of `s` had
already completed. -/
def OrderedTrace (pr : Nat → List Nat) (tr : List Ev) : Prop :=
  ∀ l1 s l2, tr = l1 ++ Ev.opBegin s :: l2 → ∀ d ∈ pr s, Ev.opComplete d ∈ l2

/-- The inductive invariant of the orchestrator machine. -/
structure Inv (pr : Nat → List Nat) (sys : OSys) : Prop where
  wf : ∀ t ∈ sys.tasks, WF pr t
  doneOk : ∀ t ∈ sys.tasks, DoneOK sys.st t
  completeInTrace : ∀ s, sys.st.phase s = Phase.completed →
    Ev.opComplete s ∈ sys.st.trace
  ordered : OrderedTrace pr sys.st.trace

end Orch

/-! ## `die`, signal handling and process exit (`CompositeService.ts`) -/

namespace Composite

/-- The orchestrator state `die` touches: the write-once `stopping` flag
(line 17) and the set of services (line 49-52), which the shutdown sequence
stops. -/
structure CompositeState where
  stopping : Bool
  services : List Nat
deriving DecidableEq, Repr

/-- Orchestrator-level effects: `logger.error`, `logger.info`, the launch of
the concurrent stop of the listed services (`Promise.all` of `stopService`,
line 90), and `process.exit` with a status code. -/
inductive OrchEv where
  | logError (msg : String)
  | logInfo (msg : String)
  | launchStopAll (ids : List Nat)
  | exitProcess (code : Nat)
deriving DecidableEq, Repr

/-- `function never()` (lines 119-121): `new Promise(() => \x7b\x7d)` whose
executor installs no resolver, so at no time does it settle.  A promise is
modelled by its settlement history: what it has resolved to at each time. -/
def neverPromise : Nat → Option Unit := fun _ => none

/-- `CompositeService.die` (lines 85-97): on the first call, set the
`stopping` flag, log the message and the shutdown notice, and launch the
concurrent stop of every service; on any later call, do nothing.  Every
call returns `never()`. -/
def die (st : CompositeState) (message : String) :
    CompositeState × List OrchEv × (Nat → Option Unit) :=
  if st.stopping then (st, [], neverPromise)
  else
    ({ st with stopping := true },
     [OrchEv.logError message, OrchEv.logInfo "Stopping composite service...",
      OrchEv.launchStopAll st.services],
     neverPromise)

/-- The continuation of the first `die` call once every service has stopped
(lines 91-93): log completion, then `process.exit(1)` — the status code is
the literal `1` for every shutdown cause. -/
def shutdownContinuation : List OrchEv :=
  [OrchEv.logInfo "Stopped composite service", OrchEv.exitProcess 1]

/-- What triggers the shutdown: a host signal (SIGINT/SIGTERM) or a fatal
condition reported by a component. -/
inductive ShutdownCause where
  | signalCause (name : String)
  | fatalCause (msg : String)
deriving DecidableEq, Repr

/-- The message `die` is invoked with: the signal handlers (lines 43-47)
call `die` with a descriptive message; fatal conditions pass their own. -/
def causeMessage : ShutdownCause → String
  | ShutdownCause.signalCause name => "Received shutdown signal " ++ name
  | ShutdownCause.fatalCause msg => msg

/-- A whole shutdown from one trigger: the `die` call and — when it is the
first one — the exit continuation that runs after every service stopped. -/
def runShutdown (st : CompositeState) (cause : ShutdownCause) :
    CompositeState × List OrchEv :=
  let d := die st (causeMessage cause)
  (d.1, d.2.1 ++ (if st.stopping then [] else shutdownContinuation))

/-- Sequential iteration of `die` over a list of messages, collecting the
effects and every caller's returned promise. -/
def iterDie : CompositeState → List String →
    CompositeState × List OrchEv × List (Nat → Option Unit)
  | st, [] => (st, [], [])
  | st, m :: ms =>
    let d := die st m
    let rest := iterDie d.1 ms
    (rest.1, d.2.1 ++ rest.2.1, d.2.2 :: rest.2.2)

/-- Number of launched shutdown sequences in an effect list. -/
def countLaunches (evs : List OrchEv) : Nat :=
  evs.countP fun e =>
    match e with | OrchEv.launchStopAll _ => true | _ => false

/-- The claim that a purely voluntary shutdown (a host signal, no fatal
condition) makes the supervising process exit with status code 0. -/
def GracefulExitZero (st : CompositeState) (name : String) : Prop :=
  OrchEv.exitProcess 0 ∈ (runShutdown st (ShutdownCause.signalCause name)).2

end Composite

/-! ## Concrete inputs used to exercise the theorems -/

/-- The crash-machine invariant: the trace satisfies `NoSpawnAfterStop` and
any recorded `stop()` invocation is reflected in the memoized `stopResult`. -/
def CInv (c : CrashSys) : Prop :=
  NoSpawnAfterStop c.trace ∧
  (SvcEv.stopInvoked ∈ c.trace → c.svc.stopResult.isSome = true)

/-- A minimal service configuration. -/
def cfg0 : NormalizedComposedServiceConfig :=
  { dependencies := [], minimumRestartDelay := 1000 }

/-- A supervisor that was stopped before ever being started. -/
def exStopped : ComposedService := (stop (newComposedService cfg0)).1

/-- A supervisor that has started and reached readiness: gate `0`,
process `1` (live), memoized start promise `2`. -/
def exReadySvc : ComposedService :=
  { config := cfg0, ready := some 0, readyResolved := true,
    process := some { pid := 1, isEnded := false }, startResult := some 2,
    stopResult := none, crashes := 0, nextId := 3 }

/-- A two-service dependency graph: service 1 depends on service 0. -/
def deps1 : Nat → List Nat := fun n => if n = 1 then [0] else []

/-- A rank function witnessing acyclicity of `deps1`. -/
def rank1 : Nat → Nat := fun n => n

/-- A rank function for the reverse (dependents) relation of `deps1`. -/
def rank1r : Nat → Nat := fun n => 1 - n

namespace Orch

/-- Start machine on `deps1`, after the `start()` of service 0 begins. -/
def exStA : OrchSt :=
  { st0 with phase := fun x => if x = 0 then Phase.running else st0.phase x,
             trace := [Ev.opBegin 0] }

/-- ... after the `start()` of service 0 completes. -/
def exStB : OrchSt :=
  { exStA with phase := fun x => if x = 0 then Phase.completed else exStA.phase x,
               trace := Ev.opComplete 0 :: exStA.trace }

/-- ... after the `start()` of service 1 begins. -/
def exStC : OrchSt :=
  { exStB with phase := fun x => if x = 1 then Phase.running else exStB.phase x,
               trace := Ev.opBegin 1 :: exStB.trace }

/-- Stop machine on `deps1`, after the `stop()` of service 1 (the
dependent) begins. -/
def exStD : OrchSt :=
  { st0 with phase := fun x => if x = 1 then Phase.running else st0.phase x,
             trace := [Ev.opBegin 1] }

/-- ... after the `stop()` of service 1 completes. -/
def exStE : OrchSt :=
  { exStD with phase := fun x => if x = 1 then Phase.completed else exStD.phase x,
               trace := Ev.opComplete 1 :: exStD.trace }

/-- ... after the `stop()` of service 0 begins. -/
def exStF : OrchSt :=
  { exStE with phase := fun x => if x = 0 then Phase.running else exStE.phase x,
               trace := Ev.opBegin 0 :: exStE.trace }

/-- A one-service system whose stopping flag is already set. -/
def sysStopped0 : OSys :=
  ⟨{ stopping := true, phase := fun _ => Phase.notInvoked, trace := [] },
   [OTask.waiting 0 []]⟩

/-- The same system after the pending `startService` call parks. -/
def sysStopped1 : OSys :=
  ⟨{ stopping := true, phase := fun _ => Phase.notInvoked, trace := [] },
   [OTask.parked 0]⟩

end Orch

/-! # Theorems -/

/-! ## Supervisor idempotence (C4, C10, C9) -/

/-- A second `start` while started: the memoized outcome is returned, with
no effect (part_003 lines 33, 42). -/
theorem start_memo (svc : ComposedService) (r : Nat)
    (h1 : svc.stopResult = none) (h2 : svc.startResult = some r) :
    start svc = (svc, [], some r) := by
  simp [start, h1, h2]

/-- Iterating `start` on a started supervisor has no effect and every
caller observes the memoized outcome. -/
theorem iterStart_memo (svc : ComposedService) (r : Nat) (n : Nat)
    (h1 : svc.stopResult = none) (h2 : svc.startResult = some r) :
    iterStart svc n = (svc, [], List.replicate n (some r)) := by
  induction n with
  | zero => simp [iterStart]
  | succ n ih => simp [iterStart, start_memo svc r h1 h2, ih, List.replicate_succ]

/-- A second `stop`: the memoized outcome is returned, with no effect
(part_003 lines 102, 112). -/
theorem stop_memo (svc : ComposedService) (r : Nat)
    (h : svc.stopResult = some r) : stop svc = (svc, [], r) := by
  simp [stop, h]

/-- Iterating `stop` on a stopped supervisor has no effect and every caller
observes the memoized outcome. -/
theorem iterStop_memo (svc : ComposedService) (r : Nat) (n : Nat)
    (h : svc.stopResult = some r) :
    iterStop svc n = (svc, [], List.replicate n r) := by
  induction n with
  | zero => simp [iterStop]
  | succ n ih => simp [iterStop, stop_memo svc r h, ih, List.replicate_succ]

/-- Every branch of `stop` leaves `stopResult` memoized to the returned
outcome. -/
theorem stop_result_memoized (svc : ComposedService) :
    (stop svc).1.stopResult = some (stop svc).2.2 := by
  cases hs : svc.stopResult with
  | some r => simp [stop, hs]
  | none =>
    cases hp : svc.process with
    | none => simp [stop, hs, hp]
    | some p => cases he : p.isEnded <;> simp [stop, hs, hp, he]

/-- A single `stop` call issues at most one termination request. -/
theorem stop_terminate_le_one (svc : ComposedService) :
    countTerminate (stop svc).2.1 ≤ 1 := by
  cases hs : svc.stopResult with
  | some r => simp [stop, hs, countTerminate]
  | none =>
    cases hp : svc.process with
    | none => simp [stop, hs, hp, countTerminate]
    | some p => cases he : p.isEnded <;> simp [stop, hs, hp, he, countTerminate]

/-- C4: for every service supervisor, `start()` and `stop()` are
idempotent: from a fresh supervisor, any number of `start()` invocations
causes exactly one process spawn and returns the same memoized outcome to
every caller; from any supervisor state, any number of `stop()` invocations
causes at most one termination request and returns the same memoized
outcome to every caller. -/
theorem c4_start_stop_idempotent (config : NormalizedComposedServiceConfig)
    (n m : Nat) (svc : ComposedService) :
    countSpawn (iterStart (newComposedService config) (n + 1)).2.1 = 1 ∧
    (∀ r ∈ (iterStart (newComposedService config) (n + 1)).2.2,
        r = (start (newComposedService config)).2.2) ∧
    countTerminate (iterStop svc (m + 1)).2.1 ≤ 1 ∧
    (∀ r ∈ (iterStop svc (m + 1)).2.2, r = (stop svc).2.2) := by
  have hfresh : start (newComposedService config) =
      ({ config := config, ready := some 0, readyResolved := false,
         process := some { pid := 1, isEnded := false }, startResult := some 2,
         stopResult := none, crashes := 0, nextId := 3 },
       [SvcEv.logLine "Starting service", SvcEv.spawnProcess 1], some 2) := rfl
  have hmemo := iterStart_memo
    ({ config := config, ready := some 0, readyResolved := false,
       process := some { pid := 1, isEnded := false }, startResult := some 2,
       stopResult := none, crashes := 0, nextId := 3 } : ComposedService)
    2 n rfl rfl
  refine ⟨?_, ?_, ?_, ?_⟩
  · show countSpawn (iterStart (newComposedService config) (n + 1)).2.1 = 1
    simp [iterStart, hfresh, hmemo, countSpawn]
  · intro r hr
    simp [iterStart, hfresh, hmemo] at hr
    rcases hr with h | h <;> simp [hfresh, h]
  · have : iterStop svc (m + 1) =
        ((stop svc).1, (stop svc).2.1 ++ [], List.replicate m (stop svc).2.2 |>.cons (stop svc).2.2) := by
      simp [iterStop, iterStop_memo (stop svc).1 (stop svc).2.2 m (stop_result_memoized svc)]
    rw [this]
    simpa using stop_terminate_le_one svc
  · intro r hr
    simp [iterStop, iterStop_memo (stop svc).1 (stop svc).2.2 m
      (stop_result_memoized svc)] at hr
    rcases hr with h | h <;> simp [h]

/-- C10: once `stop()` has been invoked, a subsequent `start()` never
spawns a process: it reports the internal error and returns the memoized
start outcome — which is `undefined` (`none`) when `start()` was never
invoked before the stop. -/
theorem c10_start_after_stop (svc : ComposedService)
    (h : svc.stopResult.isSome = true) :
    (start svc).1 = svc ∧
    (start svc).2.1 = [SvcEv.logInternalError "Cannot start after stopping"] ∧
    countSpawn (start svc).2.1 = 0 ∧
    (start svc).2.2 = svc.startResult := by
  simp [start, h, countSpawn]

/-- Witness for C10 at a supervisor stopped before ever starting: no spawn,
and the returned outcome is `none`. -/
theorem c10_witness :
    (start exStopped).1 = exStopped ∧
    (start exStopped).2.1 = [SvcEv.logInternalError "Cannot start after stopping"] ∧
    countSpawn (start exStopped).2.1 = 0 ∧
    (start exStopped).2.2 = none :=
  c10_start_after_stop exStopped rfl

/-- C9 counterexample: at both InternalAssertion sites — `start()` after
stop (part_003 lines 29-32) and a crash notification after stop (lines
65-70) — the code reports via `console.error` and returns early; it does
not invoke `die`.  This refutes the claim that every InternalAssertion
failure routes through the single fatal entry point `die`. -/
theorem c9_counterexample :
    (start exStopped).2.1 = [SvcEv.logInternalError "Cannot start after stopping"] ∧
    (∀ msg, SvcEv.dieCall msg ∉ (start exStopped).2.1) ∧
    (handleCrashRun exStopped 0 0).2.1 =
      [(0, SvcEv.logInternalError "Not expecting handleCrash called when stopping")] ∧
    (∀ msg t, (t, SvcEv.dieCall msg) ∉ (handleCrashRun exStopped 0 0).2.1) := by
  refine ⟨rfl, ?_, rfl, ?_⟩
  · intro msg h
    simp [start, exStopped, stop, newComposedService, cfg0] at h
  · intro msg t h
    simp [handleCrashRun, exStopped, stop, newComposedService, cfg0] at h

/-- C9 amended: an InternalAssertion failure (a start after stop, or a
crash notification arriving after stop) is reported on the console's error
stream and the operation returns early without corrupting state; it does
not route through `die`, and the crash path spawns nothing. -/
theorem c9_internal_assertions_logged (svc : ComposedService) (t0 tHook : Nat)
    (h : svc.stopResult.isSome = true) :
    (start svc).2.1 = [SvcEv.logInternalError "Cannot start after stopping"] ∧
    (∀ msg, SvcEv.dieCall msg ∉ (start svc).2.1) ∧
    (start svc).1 = svc ∧
    (handleCrashRun svc t0 tHook).2.1 =
      [(t0, SvcEv.logInternalError "Not expecting handleCrash called when stopping")] ∧
    (∀ msg t, (t, SvcEv.dieCall msg) ∉ (handleCrashRun svc t0 tHook).2.1) ∧
    (handleCrashRun svc t0 tHook).1 = svc ∧
    countSpawnT (handleCrashRun svc t0 tHook).2.1 = 0 := by
  simp [start, handleCrashRun, h, countSpawnT]

/-! ## No restart after stop (C8) -/

/-- After any `stop` call the memoized `stopResult` is set. -/
theorem stop_isSome (svc : ComposedService) :
    (stop svc).1.stopResult.isSome = true := by
  rw [stop_result_memoized svc]
  rfl

/-- `stop` never spawns a process. -/
theorem stop_no_spawn (svc : ComposedService) (pid : Nat) :
    SvcEv.spawnProcess pid ∉ (stop svc).2.1 := by
  cases hs : svc.stopResult with
  | some r => simp [stop, hs]
  | none =>
    cases hp : svc.process with
    | none => simp [stop, hs, hp]
    | some p => cases he : p.isEnded <;> simp [stop, hs, hp, he]

/-- Prepending spawn-free events preserves `NoSpawnAfterStop`. -/
theorem nsas_append_nospawn (evs tr : List SvcEv)
    (hno : ∀ pid, SvcEv.spawnProcess pid ∉ evs)
    (h : NoSpawnAfterStop tr) : NoSpawnAfterStop (evs ++ tr) := by
  induction evs with
  | nil => simpa using h
  | cons e evs ih =>
    refine ⟨ih (fun pid hp => hno pid (List.mem_cons_of_mem e hp)), ?_⟩
    rintro ⟨pid, rfl⟩
    exact absurd (List.mem_cons_self _ _) (hno pid)

/-- Every step of the crash machine preserves the invariant. -/
theorem crashStep_inv (c c' : CrashSys) (h : CrashStep c c') (hc : CInv c) :
    CInv c' := by
  cases h with
  | entryStopped svc tr hstop =>
    refine ⟨⟨hc.1, ?_⟩, fun hm => hstop⟩
    rintro ⟨pid, hpid⟩
    cases hpid
  | entryRun svc tr hstop =>
    refine ⟨⟨hc.1, ?_⟩, ?_⟩
    · rintro ⟨pid, hpid⟩
      cases hpid
    · intro hm
      rcases List.mem_cons.mp hm with hm | hm
      · cases hm
      · exact hc.2 hm
  | readyChecked svc tr => exact hc
  | hookOk svc tr b hstop => exact hc
  | hookOkStopped svc tr b hstop => exact hc
  | hookErr svc tr b msg =>
    refine ⟨⟨hc.1, ?_⟩, ?_⟩
    · rintro ⟨pid, hpid⟩
      cases hpid
    · intro hm
      rcases List.mem_cons.mp hm with hm | hm
      · cases hm
      · exact hc.2 hm
  | delayFired svc tr hstop =>
    have hnostop : SvcEv.stopInvoked ∉ tr := by
      intro hm
      have := hc.2 hm
      rw [hstop] at this
      cases this
    refine ⟨⟨⟨hc.1, ?_⟩, ?_⟩, ?_⟩
    · rintro ⟨pid, hpid⟩
      cases hpid
    · rintro ⟨pid, hpid⟩
      intro hm
      rcases List.mem_cons.mp hm with hm | hm
      · cases hm
      · exact hnostop hm
    · intro hm
      rcases List.mem_cons.mp hm with hm | hm
      · cases hm
      · rcases List.mem_cons.mp hm with hm | hm
        · cases hm
        · exact absurd hm hnostop
  | delayFiredStopped svc tr hstop => exact hc
  | stopCall svc ph tr =>
    refine ⟨?_, fun _ => stop_isSome svc⟩
    refine ⟨nsas_append_nospawn _ _ (fun pid => stop_no_spawn svc pid) hc.1, ?_⟩
    rintro ⟨pid, hpid⟩
    cases hpid

/-- The invariant holds in every state reachable from an empty trace. -/
theorem crash_reach_inv (c0 c : CrashSys) (h0 : c0.trace = [])
    (hreach : Relation.ReflTransGen CrashStep c0 c) : CInv c := by
  induction hreach with
  | refl =>
    constructor
    · rw [h0]; trivial
    · intro hm; rw [h0] at hm; cases hm
  | tail hab hbc ih => exact crashStep_inv _ _ hbc ih

/-- `NoSpawnAfterStop` in split form: nothing newer than a `stopInvoked`
event is a spawn. -/
theorem nsas_split (tr : List SvcEv) (h : NoSpawnAfterStop tr) :
    ∀ l1 l2 pid, tr = l1 ++ SvcEv.stopInvoked :: l2 →
      SvcEv.spawnProcess pid ∉ l1 := by
  induction tr with
  | nil =>
    intro l1 l2 pid heq
    cases l1 <;> cases heq
  | cons e tr ih =>
    intro l1 l2 pid heq
    cases l1 with
    | nil => simp
    | cons f l1 =>
      rw [List.cons_append] at heq
      injection heq with he htr
      subst he
      intro hm
      rcases List.mem_cons.mp hm with hm | hm
      · subst hm
        exact h.2 ⟨pid, rfl⟩ (htr ▸ List.mem_append_right l1 (List.mem_cons_self _ _))
      · exact ih h.1 l1 l2 pid htr hm

/-- C8: once `stop()` has been invoked on a supervisor, no crash-triggered
restart occurs afterward: in every interleaving of `handleCrash` with a
`stop()` call — the stop arriving before the crash notification, while the
crash-decision hook is pending, or while the restart delay is pending — no
process spawn ever appears in the trace after the stop invocation. -/
theorem c8_no_restart_after_stop (c0 c : CrashSys) (h0 : c0.trace = [])
    (hreach : Relation.ReflTransGen CrashStep c0 c) :
    ∀ l1 l2 pid, c.trace = l1 ++ SvcEv.stopInvoked :: l2 →
      SvcEv.spawnProcess pid ∉ l1 :=
  nsas_split c.trace (crash_reach_inv c0 c h0 hreach).1

/-- Witness for C8: a concrete interleaving — `stop()` lands first, then
the crash notification arrives; the handler reports the internal error and
nothing newer than the stop is a spawn. -/
theorem c8_witness :
    SvcEv.spawnProcess 7 ∉
      [SvcEv.logInternalError "Not expecting handleCrash called when stopping"] := by
  have h1 : CrashStep ⟨exReadySvc, CrashPhase.entry, []⟩
      ⟨(stop exReadySvc).1, CrashPhase.entry,
       SvcEv.stopInvoked :: ((stop exReadySvc).2.1 ++ [])⟩ :=
    CrashStep.stopCall exReadySvc CrashPhase.entry []
  have h2 : CrashStep
      ⟨(stop exReadySvc).1, CrashPhase.entry,
       SvcEv.stopInvoked :: ((stop exReadySvc).2.1 ++ [])⟩
      ⟨(stop exReadySvc).1, CrashPhase.returned,
       SvcEv.logInternalError "Not expecting handleCrash called when stopping" ::
         (SvcEv.stopInvoked :: ((stop exReadySvc).2.1 ++ []))⟩ :=
    CrashStep.entryStopped (stop exReadySvc).1 _ (stop_isSome exReadySvc)
  exact c8_no_restart_after_stop ⟨exReadySvc, CrashPhase.entry, []⟩ _ rfl
    (Relation.ReflTransGen.head h1 (Relation.ReflTransGen.single h2))
    [SvcEv.logInternalError "Not expecting handleCrash called when stopping"]
    ((stop exReadySvc).2.1 ++ []) 7 rfl

/-! ## `die` idempotence and exit status (C5, C6) -/

/-- A `die` call while already stopping has no effect (lines 86-94). -/
theorem die_stopped (st : Composite.CompositeState) (m : String)
    (h : st.stopping = true) :
    Composite.die st m = (st, [], Composite.neverPromise) := by
  simp [Composite.die, h]

/-- Iterating `die` on an already-stopping orchestrator changes nothing and
every call returns the never-settling promise. -/
theorem iterDie_stopped (st : Composite.CompositeState) (ms : List String)
    (h : st.stopping = true) :
    Composite.iterDie st ms =
      (st, [], List.replicate ms.length Composite.neverPromise) := by
  induction ms with
  | nil => simp [Composite.iterDie]
  | cons m ms ih =>
    simp [Composite.iterDie, die_stopped st m h, ih, List.replicate_succ]

/-- C5: of any number of `die` invocations, only the first has any effect —
it flips the `stopping` flag, logs the triggering message and launches
exactly one shutdown sequence stopping every service; each later invocation
changes nothing; and every invocation returns a promise that never
settles. -/
theorem c5_die_idempotent (st : Composite.CompositeState) (m : String)
    (ms : List String) (h : st.stopping = false) :
    (Composite.iterDie st (m :: ms)).2.1 =
      [Composite.OrchEv.logError m,
       Composite.OrchEv.logInfo "Stopping composite service...",
       Composite.OrchEv.launchStopAll st.services] ∧
    Composite.countLaunches (Composite.iterDie st (m :: ms)).2.1 = 1 ∧
    (Composite.iterDie st (m :: ms)).1 = { st with stopping := true } ∧
    (∀ p ∈ (Composite.iterDie st (m :: ms)).2.2, ∀ t, p t = none) := by
  have hfirst : Composite.die st m =
      ({ st with stopping := true },
       [Composite.OrchEv.logError m,
        Composite.OrchEv.logInfo "Stopping composite service...",
        Composite.OrchEv.launchStopAll st.services],
       Composite.neverPromise) := by
    simp [Composite.die, h]
  have hrest := iterDie_stopped { st with stopping := true } ms rfl
  refine ⟨?_, ?_, ?_, ?_⟩
  · simp [Composite.iterDie, hfirst, hrest]
  · simp [Composite.iterDie, hfirst, hrest, Composite.countLaunches]
  · simp [Composite.iterDie, hfirst, hrest]
  · intro p hp t
    simp [Composite.iterDie, hfirst, hrest] at hp
    rcases hp with hp | hp
    · simp [hp, Composite.neverPromise]
    · simp [hp.2, Composite.neverPromise]

/-- Witness for C5: three concurrent `die` calls on a running composite. -/
theorem c5_witness :
    (Composite.iterDie ⟨false, [0, 1]⟩ ["boom", "x", "y"]).2.1 =
      [Composite.OrchEv.logError "boom",
       Composite.OrchEv.logInfo "Stopping composite service...",
       Composite.OrchEv.launchStopAll [0, 1]] ∧
    Composite.countLaunches
      (Composite.iterDie ⟨false, [0, 1]⟩ ["boom", "x", "y"]).2.1 = 1 ∧
    (Composite.iterDie ⟨false, [0, 1]⟩ ["boom", "x", "y"]).1 = ⟨true, [0, 1]⟩ ∧
    (∀ p ∈ (Composite.iterDie ⟨false, [0, 1]⟩ ["boom", "x", "y"]).2.2,
        ∀ t, p t = none) :=
  c5_die_idempotent ⟨false, [0, 1]⟩ "boom" ["x", "y"] rfl

/-- C6 counterexample: a purely voluntary shutdown — a SIGINT with no fatal
condition — does not make the process exit with status code 0: the `die`
continuation runs `process.exit(1)` for every shutdown cause
(`CompositeService.ts` line 93). -/
theorem c6_counterexample :
    ¬ Composite.GracefulExitZero ⟨false, [0]⟩ "SIGINT" := by
  intro h
  simp [Composite.GracefulExitZero, Composite.runShutdown, Composite.die,
    Composite.causeMessage, Composite.shutdownContinuation] at h

/-- C6 amended: whenever shutdown is triggered on a running composite —
whether by a fatal condition or by an interrupt/termination signal — the
supervising process exits with status code 1; status code 0 is never
produced by the shutdown path. -/
theorem c6_exit_code_always_one (st : Composite.CompositeState)
    (cause : Composite.ShutdownCause) (h : st.stopping = false) :
    Composite.OrchEv.exitProcess 1 ∈ (Composite.runShutdown st cause).2 ∧
    (∀ c, Composite.OrchEv.exitProcess c ∈ (Composite.runShutdown st cause).2 →
      c = 1) := by
  constructor
  · simp [Composite.runShutdown, Composite.die, h,
      Composite.shutdownContinuation]
  · intro c hc
    simp [Composite.runShutdown, Composite.die, h,
      Composite.shutdownContinuation] at hc
    exact hc

/-- Witness for the amended C6: a SIGTERM shutdown exits with code 1. -/
theorem c6_witness :
    Composite.OrchEv.exitProcess 1 ∈
      (Composite.runShutdown ⟨false, [0]⟩
        (Composite.ShutdownCause.signalCause "SIGTERM")).2 ∧
    (∀ c, Composite.OrchEv.exitProcess c ∈
        (Composite.runShutdown ⟨false, [0]⟩
          (Composite.ShutdownCause.signalCause "SIGTERM")).2 → c = 1) :=
  c6_exit_code_always_one ⟨false, [0]⟩
    (Composite.ShutdownCause.signalCause "SIGTERM") rfl

/-! ## Crash-triggered restart (C7) -/

/-- C7 counterexample: the restart does not create a fresh ReadinessGate.
After a post-ready crash is handled to completion under the default policy,
`this.ready` is exactly the gate created by the original `start()`
(part_003 line 99 re-runs only `startProcess`, never `defineReady`). -/
theorem c7_counterexample : ¬ FreshGateOnRestart exReadySvc 0 0 := by
  intro h
  simp [FreshGateOnRestart, handleCrashRun, defaultOnCrash, exReadySvc,
    cfg0] at h

/-- C7 amended: for a service that crashes after readiness, under the
default crash-decision policy with no stop requested, crash handling begins
exactly one restart, no sooner than the configured minimum restart delay
after the crash; the restart re-runs the spawn with a fresh ProcessHandle,
while the ReadinessGate is not recreated (the memoized readiness outcome is
reused). -/
theorem c7_restart_after_delay (svc : ComposedService) (t0 tHook : Nat)
    (h1 : svc.stopResult = none) (h2 : svc.readyResolved = true)
    (h3 : ∀ p, svc.process = some p → p.pid < svc.nextId) :
    countSpawnT (handleCrashRun svc t0 tHook).2.1 = 1 ∧
    t0 + svc.config.minimumRestartDelay ≤ (handleCrashRun svc t0 tHook).2.2 ∧
    (∀ te ∈ (handleCrashRun svc t0 tHook).2.1,
        (∃ pid, te.2 = SvcEv.spawnProcess pid) →
        te.1 = (handleCrashRun svc t0 tHook).2.2) ∧
    (∀ p q, svc.process = some p →
        (handleCrashRun svc t0 tHook).1.process = some q → p.pid ≠ q.pid) ∧
    (handleCrashRun svc t0 tHook).1.ready = svc.ready := by
  refine ⟨?_, ?_, ?_, ?_, ?_⟩
  · simp [handleCrashRun, h1, h2, defaultOnCrash, countSpawnT]
  · simp [handleCrashRun, h1, h2, defaultOnCrash]
  · intro te hte hpid
    simp [handleCrashRun, h1, h2, defaultOnCrash] at hte ⊢
    rcases hte with h | h | h <;> rcases hpid with ⟨pid, hp⟩ <;>
      simp [h] at hp ⊢
  · intro p q hp hq
    have hlt := h3 p hp
    simp [handleCrashRun, h1, h2, defaultOnCrash] at hq
    rw [← hq]
    exact Nat.ne_of_lt hlt
  · show (handleCrashRun svc t0 tHook).1.ready = svc.ready
    simp [handleCrashRun, h1, h2, defaultOnCrash]

/-- Witness for the amended C7 at a started-and-ready supervisor: one
restart at time `max 5 (0 + 1000) = 1000 ≥ 1000`, a fresh process, the old
gate. -/
theorem c7_witness :
    countSpawnT (handleCrashRun exReadySvc 0 5).2.1 = 1 ∧
    0 + exReadySvc.config.minimumRestartDelay ≤ (handleCrashRun exReadySvc 0 5).2.2 ∧
    (∀ te ∈ (handleCrashRun exReadySvc 0 5).2.1,
        (∃ pid, te.2 = SvcEv.spawnProcess pid) →
        te.1 = (handleCrashRun exReadySvc 0 5).2.2) ∧
    (∀ p q, exReadySvc.process = some p →
        (handleCrashRun exReadySvc 0 5).1.process = some q → p.pid ≠ q.pid) ∧
    (handleCrashRun exReadySvc 0 5).1.ready = exReadySvc.ready :=
  c7_restart_after_delay exReadySvc 0 5 rfl rfl
    (by intro p hp; simp [exReadySvc] at hp; simp [exReadySvc, hp.symm])

/-! ## Orchestrator sequencing (C1, C2, C3) -/

namespace Orch

/-- A task step does not change which service the invocation is for. -/
theorem tstep_svc_eq {cf : Bool} :
    ∀ {st t st' t'}, TStep cf st t st' t' → OTask.svc t = OTask.svc t' := by
  intro st t st' t' h
  induction h <;> rfl

/-- A resolved invocation takes no further step. -/
theorem no_tstep_done {cf : Bool} {st st' : OrchSt} {s : Nat} {t' : OTask}
    (h : TStep cf st (OTask.done s) st' t') : False := by
  cases h

/-- A parked invocation takes no further step: it never resolves and never
invokes the supervisor operation. -/
theorem no_tstep_parked {cf : Bool} {st st' : OrchSt} {s : Nat} {t' : OTask}
    (h : TStep cf st (OTask.parked s) st' t') : False := by
  cases h

/-- A task whose promise has resolved is a `done` node. -/
theorem isDone_done {t : OTask} (h : t.isDone = true) :
    t = OTask.done t.svc := by
  cases t with
  | done s => rfl
  | waiting s children => simp [OTask.isDone] at h
  | running s => simp [OTask.isDone] at h
  | parked s => simp [OTask.isDone] at h

/-- `DoneOK` transfers along any state change that preserves completion. -/
theorem doneok_mono {st st' : OrchSt} {t : OTask}
    (hmono : ∀ x, st.phase x = Phase.completed → st'.phase x = Phase.completed)
    (h : DoneOK st t) : DoneOK st' t := by
  induction h with
  | waiting s children hch ih => exact DoneOK.waiting s children ih
  | running s => exact DoneOK.running s
  | parked s => exact DoneOK.parked s
  | done s hph => exact DoneOK.done s (hmono s hph)

/-- One task step preserves well-formedness, `DoneOK`, the trace facts and
the ordering invariant, keeps completed operations completed, and leaves
the stopping flag alone. -/
theorem tstep_preserve {pr : Nat → List Nat} {cf : Bool} :
    ∀ {st t st' t'}, TStep cf st t st' t' →
    WF pr t → DoneOK st t →
    (∀ s, st.phase s = Phase.completed → Ev.opComplete s ∈ st.trace) →
    OrderedTrace pr st.trace →
    WF pr t' ∧ DoneOK st' t' ∧
    (∀ s, st'.phase s = Phase.completed → Ev.opComplete s ∈ st'.trace) ∧
    OrderedTrace pr st'.trace ∧
    (∀ x, st.phase x = Phase.completed → st'.phase x = Phase.completed) ∧
    st'.stopping = st.stopping := by
  intro st t st' t' h
  induction h with
  | park s children hdone hcf hstop =>
    intro hwf hdok hcomp hord
    exact ⟨WF.parked s, DoneOK.parked s, hcomp, hord, fun x hx => hx, rfl⟩
  | invoke s children hdone hstop hph =>
    intro hwf hdok hcomp hord
    cases hwf with
    | waiting _ _ hch hcover =>
    cases hdok with
    | waiting _ _ hdch =>
    refine ⟨WF.running s, DoneOK.running s, ?_, ?_, ?_, rfl⟩
    · intro x hx
      by_cases hxs : x = s
      · subst hxs
        simp at hx
      · simp [hxs] at hx
        exact List.mem_cons_of_mem _ (hcomp x hx)
    · intro l1 u l2 heq
      cases l1 with
      | nil =>
        simp only [List.nil_append] at heq
        injection heq with h1 h2
        injection h1 with h1
        subst h1
        subst h2
        intro d hd
        rcases hcover d hd with ⟨w, hw, hsvc⟩
        have hwd := isDone_done (hdone w hw)
        rw [hsvc] at hwd
        have hdw := hdch w hw
        rw [hwd] at hdw
        cases hdw with
        | done _ hphd => exact hcomp d hphd
      | cons e l1 =>
        rw [List.cons_append] at heq
        injection heq with h1 h2
        exact hord l1 u l2 h2
    · intro x hx
      by_cases hxs : x = s
      · subst hxs
        rw [hph] at hx
        simp at hx
      · simpa [hxs] using hx
  | memo s children hdone hstop hph =>
    intro hwf hdok hcomp hord
    exact ⟨WF.running s, DoneOK.running s, hcomp, hord, fun x hx => hx, rfl⟩
  | finish s hph =>
    intro hwf hdok hcomp hord
    exact ⟨WF.done s, DoneOK.done s hph, hcomp, hord, fun x hx => hx, rfl⟩
  | child st2 s pre post t t1 hstep ih =>
    intro hwf hdok hcomp hord
    cases hwf with
    | waiting _ _ hch hcover =>
    cases hdok with
    | waiting _ _ hdch =>
    have hmem : t ∈ pre ++ t :: post :=
      List.mem_append_right pre (List.mem_cons_self t post)
    obtain ⟨hwf1, hdok1, hcomp1, hord1, hmono, hstop1⟩ :=
      ih (hch t hmem) (hdch t hmem) hcomp hord
    refine ⟨?_, ?_, hcomp1, hord1, hmono, hstop1⟩
    · refine WF.waiting s _ ?_ ?_
      · intro u hu
        rcases List.mem_append.mp hu with hu | hu
        · exact hch u (List.mem_append_left _ hu)
        · rcases List.mem_cons.mp hu with rfl | hu
          · exact hwf1
          · exact hch u
              (List.mem_append_right _ (List.mem_cons_of_mem _ hu))
      · intro d hd
        rcases hcover d hd with ⟨u, hu, hsvc⟩
        rcases List.mem_append.mp hu with hu | hu
        · exact ⟨u, List.mem_append_left _ hu, hsvc⟩
        · rcases List.mem_cons.mp hu with rfl | hu
          · exact ⟨t1, List.mem_append_right _ (List.mem_cons_self t1 post),
              (tstep_svc_eq hstep).symm.trans hsvc⟩
          · exact ⟨u, List.mem_append_right _ (List.mem_cons_of_mem _ hu), hsvc⟩
    · refine DoneOK.waiting s _ ?_
      intro u hu
      rcases List.mem_append.mp hu with hu | hu
      · exact doneok_mono hmono (hdch u (List.mem_append_left _ hu))
      · rcases List.mem_cons.mp hu with rfl | hu
        · exact hdok1
        · exact doneok_mono hmono
            (hdch u (List.mem_append_right _ (List.mem_cons_of_mem _ hu)))

/-- Every global step preserves the invariant. -/
theorem gstep_inv {pr : Nat → List Nat} {cf : Bool} {sys sys' : OSys}
    (h : GStep cf sys sys') (hi : Inv pr sys) : Inv pr sys' := by
  cases h with
  | task st st' pre post t t1 hstep =>
    have hmem : t ∈ pre ++ t :: post :=
      List.mem_append_right pre (List.mem_cons_self t post)
    obtain ⟨hwf1, hdok1, hcomp1, hord1, hmono, _⟩ :=
      tstep_preserve hstep (hi.wf t hmem) (hi.doneOk t hmem)
        hi.completeInTrace hi.ordered
    refine ⟨?_, ?_, hcomp1, hord1⟩
    · intro u hu
      rcases List.mem_append.mp hu with hu | hu
      · exact hi.wf u (List.mem_append_left _ hu)
      · rcases List.mem_cons.mp hu with rfl | hu
        · exact hwf1
        · exact hi.wf u
            (List.mem_append_right _ (List.mem_cons_of_mem _ hu))
    · intro u hu
      rcases List.mem_append.mp hu with hu | hu
      · exact doneok_mono hmono (hi.doneOk u (List.mem_append_left _ hu))
      · rcases List.mem_cons.mp hu with rfl | hu
        · exact hdok1
        · exact doneok_mono hmono (hi.doneOk u
            (List.mem_append_right _ (List.mem_cons_of_mem _ hu)))
  | complete st ts s hph =>
    refine ⟨hi.wf, ?_, ?_, ?_⟩
    · intro u hu
      refine doneok_mono ?_ (hi.doneOk u hu)
      intro x hx
      by_cases hxs : x = s
      · subst hxs; simp
      · simpa [hxs] using hx
    · intro x hx
      by_cases hxs : x = s
      · subst hxs
        exact List.mem_cons_self _ _
      · simp [hxs] at hx
        exact List.mem_cons_of_mem _ (hi.completeInTrace x hx)
    · intro l1 u l2 heq
      cases l1 with
      | nil =>
        simp only [List.nil_append] at heq
        injection heq with h1 h2
        cases h1
      | cons e l1 =>
        rw [List.cons_append] at heq
        injection heq with h1 h2
        exact hi.ordered l1 u l2 h2
  | setFlag st ts hstop =>
    refine ⟨hi.wf, ?_, ?_, ?_⟩
    · intro u hu
      refine doneok_mono ?_ (hi.doneOk u hu)
      intro x hx
      exact hx
    · intro x hx
      exact List.mem_cons_of_mem _ (hi.completeInTrace x hx)
    · intro l1 u l2 heq
      cases l1 with
      | nil =>
        simp only [List.nil_append] at heq
        injection heq with h1 h2
        cases h1
      | cons e l1 =>
        rw [List.cons_append] at heq
        injection heq with h1 h2
        exact hi.ordered l1 u l2 h2

/-- The invariant holds in every reachable system. -/
theorem reach_inv {pr : Nat → List Nat} {cf : Bool} {sys sys' : OSys}
    (h : Reaches cf sys sys') (hi : Inv pr sys) : Inv pr sys' := by
  induction h with
  | refl => exact hi
  | tail hab hbc ih => exact gstep_inv hbc ih

/-- The root service of an unfolded invocation. -/
theorem buildTask_svc (pr : Nat → List Nat) (fuel s : Nat) :
    (buildTask pr fuel s).svc = s := by
  cases fuel <;> rfl

/-- With fuel above the rank, the unfolded invocation is well-formed. -/
theorem buildTask_wf (pr : Nat → List Nat) (r : Nat → Nat)
    (hr : ∀ a d, d ∈ pr a → r d < r a) :
    ∀ fuel s, r s < fuel → WF pr (buildTask pr fuel s) := by
  intro fuel
  induction fuel with
  | zero => intro s h; exact absurd h (Nat.not_lt_zero _)
  | succ fuel ih =>
    intro s h
    refine WF.waiting s _ ?_ ?_
    · intro t ht
      rcases List.mem_map.mp ht with ⟨d, hd, rfl⟩
      exact ih d (by have := hr s d hd; omega)
    · intro d hd
      exact ⟨buildTask pr fuel d, List.mem_map_of_mem _ hd,
        buildTask_svc pr fuel d⟩

/-- An unfolded invocation contains no resolved node, so `DoneOK` holds in
any state. -/
theorem buildTask_doneok (st : OrchSt) (pr : Nat → List Nat) :
    ∀ fuel s, DoneOK st (buildTask pr fuel s) := by
  intro fuel
  induction fuel with
  | zero =>
    intro s
    exact DoneOK.waiting s [] (fun t ht => absurd ht (List.not_mem_nil t))
  | succ fuel ih =>
    intro s
    refine DoneOK.waiting s _ ?_
    intro t ht
    rcases List.mem_map.mp ht with ⟨d, hd, rfl⟩
    exact ih d

/-- The invariant holds initially. -/
theorem init_inv (pr : Nat → List Nat) (services : List Nat) (r : Nat → Nat)
    (hr : ∀ a d, d ∈ pr a → r d < r a) :
    Inv pr ⟨st0, forest pr services r⟩ := by
  refine ⟨?_, ?_, ?_, ?_⟩
  · intro t ht
    rcases List.mem_map.mp ht with ⟨s, hs, rfl⟩
    exact buildTask_wf pr r hr (r s + 1) s (Nat.lt_succ_self _)
  · intro t ht
    rcases List.mem_map.mp ht with ⟨s, hs, rfl⟩
    exact buildTask_doneok st0 pr (r s + 1) s
  · intro s hs
    simp [st0] at hs
  · intro l1 u l2 heq
    simp [st0] at heq

/-- C1: for every acyclic ServiceGraph (witnessed by a rank function on the
dependency relation) and every reachable state of the orchestrator's start
machine, whenever a service's supervisor `start()` is invoked, the
`start()` of every one of its dependencies had already completed — i.e. a
service's start begins strictly after all of its dependencies' starts have
completed, which is when `startService` of each dependency resolves. -/
theorem c1_start_after_dependencies (deps : Nat → List Nat)
    (services : List Nat) (r : Nat → Nat)
    (hr : ∀ s d, d ∈ deps s → r d < r s)
    (sys : OSys) (hreach : Reaches true ⟨st0, forest deps services r⟩ sys)
    (l1 : List Ev) (s : Nat) (l2 : List Ev)
    (hsplit : sys.st.trace = l1 ++ Ev.opBegin s :: l2) :
    ∀ d ∈ deps s, Ev.opComplete d ∈ l2 :=
  (reach_inv hreach (init_inv deps services r hr)).ordered l1 s l2 hsplit

/-- C3: for every ServiceGraph whose stop recursion unfolds (witnessed by a
rank function on the dependents relation) and every reachable state of the
orchestrator's stop machine, whenever a service's supervisor `stop()` is
invoked, the `stop()` of every service that lists it as a dependency had
already completed — dependents stop first, transitively. -/
theorem c3_stop_after_dependents (deps : Nat → List Nat)
    (services : List Nat) (r : Nat → Nat)
    (hr : ∀ s d, d ∈ dependents services deps s → r d < r s)
    (sys : OSys)
    (hreach : Reaches false
      ⟨st0, forest (dependents services deps) services r⟩ sys)
    (l1 : List Ev) (s : Nat) (l2 : List Ev)
    (hsplit : sys.st.trace = l1 ++ Ev.opBegin s :: l2) :
    ∀ d ∈ dependents services deps s, Ev.opComplete d ∈ l2 :=
  (reach_inv hreach
    (init_inv (dependents services deps) services r hr)).ordered l1 s l2 hsplit

/-- Once the stopping flag is set, a `startService` task step changes
nothing: no invocation, no event (the only enabled resumption is the
park). -/
theorem tstep_stopped :
    ∀ {st t st' t'}, TStep true st t st' t' → st.stopping = true →
      st' = st := by
  intro st t st' t' h
  induction h with
  | park s children hdone hcf hstop => intro _; rfl
  | invoke s children hdone hstop hph =>
    intro hs
    simp [hstop rfl] at hs
  | memo s children hdone hstop hph =>
    intro hs
    simp [hstop rfl] at hs
  | finish s hph => intro _; rfl
  | child st2 s pre post t t1 hstep ih => exact ih

/-- Once the stopping flag is set, a global step of the start machine keeps
it set and records no `opBegin` — no supervisor `start()` is invoked, hence
no process is spawned through the orchestrator's start path. -/
theorem gstep_stopped {sys sys' : OSys} (h : GStep true sys sys')
    (hstop : sys.st.stopping = true) :
    sys'.st.stopping = true ∧
    ∃ pre, sys'.st.trace = pre ++ sys.st.trace ∧ ∀ s, Ev.opBegin s ∉ pre := by
  cases h with
  | task st st' pre post t t1 hstep =>
    have heq := tstep_stopped hstep hstop
    subst heq
    exact ⟨hstop, [], by simp, by simp⟩
  | complete st ts s hph =>
    refine ⟨hstop, [Ev.opComplete s], rfl, ?_⟩
    intro u hm
    simp at hm
  | setFlag st ts hst =>
    rw [hst] at hstop
    cases hstop

/-- A `startService` call whose dependency subtree has fully resolved,
resuming while the stopping flag is set, necessarily parks and changes
nothing. -/
theorem tstep_waiting_stopped :
    ∀ {st t st' t'}, TStep true st t st' t' →
      ∀ s children, t = OTask.waiting s children →
      (∀ u ∈ children, OTask.isDone u = true) →
      st.stopping = true →
      st' = st ∧ t' = OTask.parked s := by
  intro st t st' t' h
  induction h with
  | park s2 children2 hdone hcf hstop =>
    intro s children heq hdone2 hst
    injection heq with h1 h2
    subst h1
    exact ⟨rfl, rfl⟩
  | invoke s2 children2 hdone hstop hph =>
    intro s children heq hdone2 hst
    simp [hstop rfl] at hst
  | memo s2 children2 hdone hstop hph =>
    intro s children heq hdone2 hst
    simp [hstop rfl] at hst
  | finish s2 hph =>
    intro s children heq hdone2 hst
    cases heq
  | child st2 s2 pre post t t1 hstep ih =>
    intro s children heq hdone2 hst
    injection heq with h1 h2
    subst h1
    subst h2
    have hmem : t ∈ pre ++ t :: post :=
      List.mem_append_right pre (List.mem_cons_self t post)
    have hd := isDone_done (hdone2 t hmem)
    rw [hd] at hstep
    exact absurd hstep no_tstep_done

/-- Reachability version of `gstep_stopped`. -/
theorem reach_stopped {sys sys' : OSys} (h : Reaches true sys sys')
    (hstop : sys.st.stopping = true) :
    sys'.st.stopping = true ∧
    ∃ pre, sys'.st.trace = pre ++ sys.st.trace ∧ ∀ s, Ev.opBegin s ∉ pre := by
  induction h with
  | refl => exact ⟨hstop, [], by simp, by simp⟩
  | tail hab hbc ih =>
    obtain ⟨h1, pre1, htr1, hnb1⟩ := ih
    obtain ⟨h2, pre2, htr2, hnb2⟩ := gstep_stopped hbc h1
    refine ⟨h2, pre2 ++ pre1, by rw [htr2, htr1, List.append_assoc], ?_⟩
    intro s hm
    rcases List.mem_append.mp hm with hm | hm
    · exact hnb2 s hm
    · exact hnb1 s hm

/-- C2: once the global stopping flag is set, (i) every continuation of the
start machine keeps the flag set and never records another supervisor
`start()` invocation — no new process is ever spawned through the
orchestrator's start path; (ii) a parked `startService` call never takes
another step — it never completes and never invokes `start()`; (iii) a
`startService` call whose dependency subtree resolves while the flag is
set necessarily parks, changing nothing (`await never()`,
`CompositeService.ts` lines 79-81, 119-121). -/
theorem c2_park_forever (sys1 sys2 : OSys) (hstop : sys1.st.stopping = true)
    (hreach : Reaches true sys1 sys2) :
    (sys2.st.stopping = true ∧
      ∃ pre, sys2.st.trace = pre ++ sys1.st.trace ∧ ∀ s, Ev.opBegin s ∉ pre) ∧
    (∀ (cf : Bool) (st st' : OrchSt) (s : Nat) (t' : OTask),
        ¬ TStep cf st (OTask.parked s) st' t') ∧
    (∀ (st st' : OrchSt) (s : Nat) (children : List OTask) (t' : OTask),
        (∀ t ∈ children, OTask.isDone t = true) → st.stopping = true →
        TStep true st (OTask.waiting s children) st' t' →
        st' = st ∧ t' = OTask.parked s) := by
  refine ⟨reach_stopped hreach hstop, ?_, ?_⟩
  · intro cf st st' s t' h
    exact no_tstep_parked h
  · intro st st' s children t' hdone hst hstep
    exact tstep_waiting_stopped hstep s children rfl hdone hst

/-- Witness for C1: on the graph where service 1 depends on service 0, an
execution that starts 0, completes it, resolves the dependency subtree of 1
and then starts 1 — the trace shows 0 completed before 1 began. -/
theorem c1_witness :
    Ev.opComplete 0 ∈ [Ev.opComplete 0, Ev.opBegin 0] := by
  have hr : ∀ s d, d ∈ deps1 s → rank1 d < rank1 s := by
    intro s d hd
    by_cases hs : s = 1
    · subst hs
      simp [deps1] at hd
      subst hd
      simp [rank1]
    · simp [deps1, hs] at hd
  have hnil : ∀ t ∈ ([] : List OTask), OTask.isDone t = true :=
    fun t ht => absurd ht (List.not_mem_nil t)
  have hone : ∀ t ∈ [OTask.done 0], OTask.isDone t = true := by
    intro t ht
    cases ht with
    | head => rfl
    | tail _ h2 => cases h2
  have s1 : GStep true
      ⟨st0, [OTask.waiting 0 [], OTask.waiting 1 [OTask.waiting 0 []]]⟩
      ⟨exStA, [OTask.running 0, OTask.waiting 1 [OTask.waiting 0 []]]⟩ :=
    GStep.task st0 exStA [] [OTask.waiting 1 [OTask.waiting 0 []]]
      (OTask.waiting 0 []) (OTask.running 0)
      (TStep.invoke st0 0 [] hnil (fun _ => rfl) rfl)
  have s2 : GStep true
      ⟨exStA, [OTask.running 0, OTask.waiting 1 [OTask.waiting 0 []]]⟩
      ⟨exStB, [OTask.running 0, OTask.waiting 1 [OTask.waiting 0 []]]⟩ :=
    GStep.complete exStA [OTask.running 0, OTask.waiting 1 [OTask.waiting 0 []]]
      0 rfl
  have s3 : GStep true
      ⟨exStB, [OTask.running 0, OTask.waiting 1 [OTask.waiting 0 []]]⟩
      ⟨exStB, [OTask.running 0, OTask.waiting 1 [OTask.running 0]]⟩ :=
    GStep.task exStB exStB [OTask.running 0] []
      (OTask.waiting 1 [OTask.waiting 0 []]) (OTask.waiting 1 [OTask.running 0])
      (TStep.child exStB exStB 1 [] [] (OTask.waiting 0 []) (OTask.running 0)
        (TStep.memo exStB 0 [] hnil (fun _ => rfl) (by decide)))
  have s4 : GStep true
      ⟨exStB, [OTask.running 0, OTask.waiting 1 [OTask.running 0]]⟩
      ⟨exStB, [OTask.running 0, OTask.waiting 1 [OTask.done 0]]⟩ :=
    GStep.task exStB exStB [OTask.running 0] []
      (OTask.waiting 1 [OTask.running 0]) (OTask.waiting 1 [OTask.done 0])
      (TStep.child exStB exStB 1 [] [] (OTask.running 0) (OTask.done 0)
        (TStep.finish exStB 0 rfl))
  have s5 : GStep true
      ⟨exStB, [OTask.running 0, OTask.waiting 1 [OTask.done 0]]⟩
      ⟨exStC, [OTask.running 0, OTask.running 1]⟩ :=
    GStep.task exStB exStC [OTask.running 0] []
      (OTask.waiting 1 [OTask.done 0]) (OTask.running 1)
      (TStep.invoke exStB 1 [OTask.done 0] hone (fun _ => rfl) rfl)
  exact c1_start_after_dependencies deps1 [0, 1] rank1 hr
    ⟨exStC, [OTask.running 0, OTask.running 1]⟩
    (Relation.ReflTransGen.head s1 (Relation.ReflTransGen.head s2
      (Relation.ReflTransGen.head s3 (Relation.ReflTransGen.head s4
        (Relation.ReflTransGen.single s5)))))
    [] 1 [Ev.opComplete 0, Ev.opBegin 0] rfl 0 (by decide)

/-- Witness for C2: with the stopping flag set, the one pending
`startService` call parks; the extension records no `opBegin`, parked tasks
are stuck, and resumptions under the flag must park. -/
theorem c2_witness :
    (sysStopped1.st.stopping = true ∧
      ∃ pre, sysStopped1.st.trace = pre ++ sysStopped0.st.trace ∧
        ∀ s, Ev.opBegin s ∉ pre) ∧
    (∀ (cf : Bool) (st st' : OrchSt) (s : Nat) (t' : OTask),
        ¬ TStep cf st (OTask.parked s) st' t') ∧
    (∀ (st st' : OrchSt) (s : Nat) (children : List OTask) (t' : OTask),
        (∀ t ∈ children, OTask.isDone t = true) → st.stopping = true →
        TStep true st (OTask.waiting s children) st' t' →
        st' = st ∧ t' = OTask.parked s) :=
  c2_park_forever sysStopped0 sysStopped1 rfl
    (Relation.ReflTransGen.single
      (GStep.task sysStopped0.st sysStopped0.st [] []
        (OTask.waiting 0 []) (OTask.parked 0)
        (TStep.park sysStopped0.st 0 []
          (fun t ht => absurd ht (List.not_mem_nil t)) rfl rfl)))

/-- Witness for C3: on the graph where service 1 depends on service 0, an
execution of the stop machine that stops 1 (the dependent), completes it,
resolves the dependent subtree of 0 and then stops 0 — the trace shows 1
stopped before 0 began stopping. -/
theorem c3_witness :
    Ev.opComplete 1 ∈ [Ev.opComplete 1, Ev.opBegin 1] := by
  have hr : ∀ s d, d ∈ dependents [0, 1] deps1 s → rank1r d < rank1r s := by
    intro s d hd
    by_cases hs : s = 0
    · subst hs
      have hdep : dependents [0, 1] deps1 0 = [1] := rfl
      rw [hdep] at hd
      simp at hd
      subst hd
      simp [rank1r]
    · simp [dependents, deps1, hs] at hd
  have hnil : ∀ t ∈ ([] : List OTask), OTask.isDone t = true :=
    fun t ht => absurd ht (List.not_mem_nil t)
  have hone : ∀ t ∈ [OTask.done 1], OTask.isDone t = true := by
    intro t ht
    cases ht with
    | head => rfl
    | tail _ h2 => cases h2
  have u1 : GStep false
      ⟨st0, [OTask.waiting 0 [OTask.waiting 1 []], OTask.waiting 1 []]⟩
      ⟨exStD, [OTask.waiting 0 [OTask.waiting 1 []], OTask.running 1]⟩ :=
    GStep.task st0 exStD [OTask.waiting 0 [OTask.waiting 1 []]] []
      (OTask.waiting 1 []) (OTask.running 1)
      (TStep.invoke st0 1 [] hnil (fun _ => rfl) rfl)
  have u2 : GStep false
      ⟨exStD, [OTask.waiting 0 [OTask.waiting 1 []], OTask.running 1]⟩
      ⟨exStE, [OTask.waiting 0 [OTask.waiting 1 []], OTask.running 1]⟩ :=
    GStep.complete exStD [OTask.waiting 0 [OTask.waiting 1 []], OTask.running 1]
      1 rfl
  have u3 : GStep false
      ⟨exStE, [OTask.waiting 0 [OTask.waiting 1 []], OTask.running 1]⟩
      ⟨exStE, [OTask.waiting 0 [OTask.running 1], OTask.running 1]⟩ :=
    GStep.task exStE exStE [] [OTask.running 1]
      (OTask.waiting 0 [OTask.waiting 1 []]) (OTask.waiting 0 [OTask.running 1])
      (TStep.child exStE exStE 0 [] [] (OTask.waiting 1 []) (OTask.running 1)
        (TStep.memo exStE 1 [] hnil (fun _ => rfl) (by decide)))
  have u4 : GStep false
      ⟨exStE, [OTask.waiting 0 [OTask.running 1], OTask.running 1]⟩
      ⟨exStE, [OTask.waiting 0 [OTask.done 1], OTask.running 1]⟩ :=
    GStep.task exStE exStE [] [OTask.running 1]
      (OTask.waiting 0 [OTask.running 1]) (OTask.waiting 0 [OTask.done 1])
      (TStep.child exStE exStE 0 [] [] (OTask.running 1) (OTask.done 1)
        (TStep.finish exStE 1 rfl))
  have u5 : GStep false
      ⟨exStE, [OTask.waiting 0 [OTask.done 1], OTask.running 1]⟩
      ⟨exStF, [OTask.running 0, OTask.running 1]⟩ :=
    GStep.task exStE exStF [] [OTask.running 1]
      (OTask.waiting 0 [OTask.done 1]) (OTask.running 0)
      (TStep.invoke exStE 0 [OTask.done 1] hone (fun _ => rfl) rfl)
  exact c3_stop_after_dependents deps1 [0, 1] rank1r hr
    ⟨exStF, [OTask.running 0, OTask.running 1]⟩
    (Relation.ReflTransGen.head u1 (Relation.ReflTransGen.head u2
      (Relation.ReflTransGen.head u3 (Relation.ReflTransGen.head u4
        (Relation.ReflTransGen.single u5)))))
    [] 0 [Ev.opComplete 1, Ev.opBegin 1] rfl 1 (by decide)

end Orch

/-- Witness for the amended C9 at a concrete stopped supervisor. -/
theorem c9_witness :
    (start exStopped).2.1 = [SvcEv.logInternalError "Cannot start after stopping"] ∧
    (∀ msg, SvcEv.dieCall msg ∉ (start exStopped).2.1) ∧
    (start exStopped).1 = exStopped ∧
    (handleCrashRun exStopped 3 7).2.1 =
      [(3, SvcEv.logInternalError "Not expecting handleCrash called when stopping")] ∧
    (∀ msg t, (t, SvcEv.dieCall msg) ∉ (handleCrashRun exStopped 3 7).2.1) ∧
    (handleCrashRun exStopped 3 7).1 = exStopped ∧
    countSpawnT (handleCrashRun exStopped 3 7).2.1 = 0 :=
  c9_internal_assertions_logged exStopped 3 7 rfl
